import Mathlib

/-!
Verification of the diff-application engine of the Anchor repository
(`src/anchor/patch.py`) and its backup collaborator (`src/anchor/backup.py`),
as a shallow embedding over `List Char` strings and `List (List Char)` line
sequences.  Each definition mirrors one Python construct of the source;
theorems below settle the specification claims against these definitions.
-/

/-- Strings are modelled as lists of characters. -/
abbrev Str := List Char

/-- Convert a Lean string literal to the `List Char` model. -/
def strToChars (s : String) : Str := s.data

/-- The ASCII whitespace characters recognised by Python's `str.strip()`
(space, tab, newline, carriage return, vertical tab, form feed). -/
def pySpace (c : Char) : Bool :=
  c == ' ' || c == '\t' || c == '\n' || c == '\r' ||
  c == Char.ofNat 11 || c == Char.ofNat 12

/-- Python `str.lstrip()`: drop leading whitespace. -/
def pyLStrip (s : Str) : Str := s.dropWhile pySpace

/-- Python `str.rstrip()`: drop trailing whitespace. -/
def pyRStrip (s : Str) : Str := (s.reverse.dropWhile pySpace).reverse

/-- Python `str.strip()`: drop leading and trailing whitespace. -/
def pyStrip (s : Str) : Str := pyLStrip (pyRStrip s)

/-- Split a character list at every newline character; always returns at
least one (possibly empty) piece. -/
def splitNL : Str → List Str
  | [] => [[]]
  | c :: rest =>
    match splitNL rest with
    | [] => [[c]]
    | p :: ps => if c = '\n' then [] :: p :: ps else (c :: p) :: ps

/-- Python `str.splitlines()` restricted to `'\n'` separators: the empty
string yields no lines, and a final newline does not produce a trailing
empty line. -/
def pySplitlines (s : Str) : List Str :=
  if s = [] then []
  else if s.getLast? = some '\n' then (splitNL s).dropLast
  else splitNL s

/-- Python `"\n".join(...)` on a list of lines. -/
def joinNL : List Str → Str
  | [] => []
  | [l] => l
  | l :: l₂ :: ls => l ++ '\n' :: joinNL (l₂ :: ls)

/-- Python substring test `pat in s`. -/
def isSubstr (pat : Str) : Str → Bool
  | [] => pat.isPrefixOf []
  | c :: rest => pat.isPrefixOf (c :: rest) || isSubstr pat rest

/-- Fuel-indexed scanner behind `replaceAll`; with fuel at least the length
of the remaining text the zero-fuel arm is never reached. -/
def replaceAllFuel (pat rep : Str) : Nat → Str → Str
  | 0, s => s
  | _ + 1, [] => []
  | fuel + 1, c :: rest =>
    if pat.isPrefixOf (c :: rest) then
      rep ++ replaceAllFuel pat rep fuel (List.drop (pat.length - 1) rest)
    else c :: replaceAllFuel pat rep fuel rest

/-- Python `s.replace(pat, rep)` for a non-empty pattern: every
non-overlapping occurrence, scanned left to right, is replaced.  (The
engine only ever calls it with a non-empty pattern; for the empty pattern
this model returns the input unchanged.) -/
def replaceAll (pat rep s : Str) : Str :=
  if pat = [] then s else replaceAllFuel pat rep s.length s

/-! ## Hunk model and parser (`patch.py` lines 15–31) -/

/-- A parsed diff line operation (spec §3 Hunk Model). -/
inductive LineOp where
  | context (t : Str)
  | add (t : Str)
  | remove (t : Str)
deriving DecidableEq, Repr

/-- The raw hunk line a `LineOp` corresponds to: its one-character
prefix followed by its content. -/
def renderOp : LineOp → Str
  | .context t => ' ' :: t
  | .add t => '+' :: t
  | .remove t => '-' :: t

/-- The content carried by a `LineOp`. -/
def opContent : LineOp → Str
  | .context t => t
  | .add t => t
  | .remove t => t

/-- The hunk-scanning loop of `apply_patch_dry_run` (patch.py lines 16–31):
collects raw hunk lines after a `@@` marker.  Lines beginning with a space,
`+` or `-` are kept verbatim; a blank line without such a prefix is recorded
as a single-space line; a line whose stripped content is a three-backtick
fence stops scanning entirely; every other line is skipped. -/
def parseHunk : List Str → Bool → List Str
  | [], _ => []
  | line :: rest, in_hunk =>
    if List.isPrefixOf ['@', '@'] line then parseHunk rest true
    else if in_hunk then
      if List.isPrefixOf [' '] line || List.isPrefixOf ['+'] line ||
          List.isPrefixOf ['-'] line then
        line :: parseHunk rest true
      else if pyStrip line = [] then
        [' '] :: parseHunk rest true
      else if List.isPrefixOf ['-', '-', '-'] line ||
          List.isPrefixOf ['+', '+', '+'] line then
        parseHunk rest true
      else if pyStrip line = [Char.ofNat 96, Char.ofNat 96, Char.ofNat 96] then
        []
      else parseHunk rest true
    else parseHunk rest false

/-! ## Block construction (`patch.py` lines 46–61) -/

/-- Build the search block, replace block and `has_actual_changes` flag
from the collected hunk lines (patch.py lines 46–61).  The first character
decides the role (a missing first character counts as a space); the rest of
the line is the content. -/
def buildBlocks : List Str → List Str × List Str × Bool
  | [] => ([], [], false)
  | line :: rest =>
    let r := buildBlocks rest
    if line.headD ' ' = ' ' then (line.tail :: r.1, line.tail :: r.2.1, r.2.2)
    else if line.headD ' ' = '-' then (line.tail :: r.1, r.2.1, true)
    else if line.headD ' ' = '+' then (r.1, line.tail :: r.2.1, true)
    else r

/-- SearchBlock of a hunk: context and removed lines in order (spec §3). -/
def searchOf : List LineOp → List Str
  | [] => []
  | .context t :: r => t :: searchOf r
  | .add _ :: r => searchOf r
  | .remove t :: r => t :: searchOf r

/-- ReplaceBlock of a hunk: context and added lines in order (spec §3). -/
def replaceOf : List LineOp → List Str
  | [] => []
  | .context t :: r => t :: replaceOf r
  | .add t :: r => t :: replaceOf r
  | .remove _ :: r => replaceOf r

/-- Whether a hunk carries at least one added or removed line
(`has_actual_changes`, patch.py lines 48–61). -/
def hasChangesOf : List LineOp → Bool
  | [] => false
  | .context _ :: r => hasChangesOf r
  | .add _ :: r => true
  | .remove _ :: r => true

/-! ## Matching and splicing (`patch.py` lines 63–105) -/

/-- The comprehension `[l.strip() for l in search_block if l.strip()]` (patch.py line 68):
strip every line and drop the ones that become empty. -/
def cleanBlock : List Str → List Str
  | [] => []
  | l :: r => if pyStrip l = [] then cleanBlock r else pyStrip l :: cleanBlock r

/-- Indices (counted from the given offset) of the lines whose stripped
content is non-empty (patch.py lines 84–87). -/
def nonblankIndicesFrom : Nat → List Str → List Nat
  | _, [] => []
  | k, l :: rest =>
    if pyStrip l = [] then nonblankIndicesFrom (k + 1) rest
    else k :: nonblankIndicesFrom (k + 1) rest

/-- The window of `orig` of the length of `search` starting at `i` equals
`search` — the comparison of patch.py line 78. -/
def matchAt (orig search : List Str) (i : Nat) : Prop :=
  (orig.drop i).take search.length = search

instance (orig search : List Str) (i : Nat) : Decidable (matchAt orig search i) := by
  unfold matchAt; infer_instance

/-- The scanning loop of patch.py lines 76–80, fuelled by the number of
remaining start positions: returns the first start index whose window
equals `search`. -/
def findMatchFrom (orig search : List Str) : Nat → Nat → Option Nat
  | _, 0 => none
  | i, fuel + 1 =>
    if (orig.drop i).take search.length = search then some i
    else findMatchFrom orig search (i + 1) fuel

/-- The loop `for i in range(len(orig) - n + 1)` with first-match early exit
(patch.py lines 76–80). -/
def findMatch (orig search : List Str) : Option Nat :=
  findMatchFrom orig search 0 (orig.length + 1 - search.length)

/-- Error message of patch.py line 64. -/
def emptyDiffMsg : String := "Diff contains no additions or deletions."

/-- Error message of patch.py line 105. -/
def noMatchMsg : String :=
  "Could not find matching context in the file for the suggested changes."

/-- Error message of patch.py line 43. -/
def noHunksMsg : String := "Could not find any changes in the diff."

/-- The body of `apply_patch_dry_run` from line 63 on, with the built
search block, replace block and change flag as parameters (patch.py lines
63–105): the no-change guard, the pure-addition policy, the stripped-line
scan with its index remapping and short-index fallback, and the raw
substring fallback. -/
def applyBlocks (original : Str) (search_block replace_block : List Str)
    (has_actual_changes : Bool) : Except String Str :=
  if has_actual_changes = false then Except.error emptyDiffMsg
  else if cleanBlock search_block = [] then
    Except.ok (pyRStrip original ++ '\n' :: joinNL replace_block)
  else
    match findMatch (List.map pyStrip (pySplitlines original)) (cleanBlock search_block) with
    | some match_index =>
      if (nonblankIndicesFrom 0 (pySplitlines original)).length <
          match_index + (cleanBlock search_block).length then
        Except.ok (replaceAll (joinNL search_block) (joinNL replace_block) original)
      else
        Except.ok (joinNL
          ((pySplitlines original).take
              ((nonblankIndicesFrom 0 (pySplitlines original)).getD match_index 0)
            ++ replace_block
            ++ (pySplitlines original).drop
              ((nonblankIndicesFrom 0 (pySplitlines original)).getD
                (match_index + (cleanBlock search_block).length - 1) 0 + 1)))
    | none =>
      if joinNL search_block ≠ [] ∧ isSubstr (joinNL search_block) original = true then
        Except.ok (replaceAll (joinNL search_block) (joinNL replace_block) original)
      else Except.error noMatchMsg

/-- Body of `apply_patch_dry_run` from line 45 on, applied to already collected
hunk lines (patch.py lines 45–105). -/
def applyCore (original : Str) (hunk_lines : List Str) : Except String Str :=
  applyBlocks original (buildBlocks hunk_lines).1 (buildBlocks hunk_lines).2.1
    (buildBlocks hunk_lines).2.2

/-- The function `apply_patch_dry_run(original_content, diff_text)` (patch.py lines
8–105).  Modelled from the spec: the `whatthepatch` last-resort branch of
lines 34–42 belongs to an external library whose code is not in the
repository; per the spec's Hunk Parser contract (§4.2), producing zero
line operations signals `NoHunksFound`, so that branch is modelled as the
final `PatchError` of line 43. -/
def apply_patch_dry_run (original diff : Str) : Except String Str :=
  if parseHunk (pySplitlines diff) false = [] then Except.error noHunksMsg
  else applyCore original (parseHunk (pySplitlines diff) false)

/-! ## Backup manager (`src/anchor/backup.py`) -/

/-- One record of the persisted history log (backup.py lines 34–38). -/
structure BackupEntry where
  original_file : String
  backup_file : String
  timestamp : String
deriving DecidableEq, Repr

/-- Outcome of `restore_last_backup`: the `None` return, the restored
original path, or the `FileNotFoundError` carrying the missing backup
path (backup.py lines 43–59). -/
inductive RestoreResult where
  | noHistory
  | restored (path : String)
  | missingBackup (path : String)
deriving DecidableEq, Repr

/-- State touched by the backup manager: the in-memory `self.history`
list, the persisted contents of `history.json`, and the file system as a
path-to-content association list. -/
structure BackupState where
  history : List BackupEntry
  diskHistory : List BackupEntry
  fs : List (String × String)
deriving DecidableEq, Repr

/-- Look a path up in the modelled file system. -/
def fsLookup (fs : List (String × String)) (p : String) : Option String :=
  (fs.find? (fun e => e.1 == p)).map (fun e => e.2)

/-- Overwrite (or create) a path in the modelled file system, as
`shutil.copy2` does for its destination. -/
def fsWrite (fs : List (String × String)) (p c : String) : List (String × String) :=
  (p, c) :: fs.filter (fun e => !(e.1 == p))

/-- Method `BackupManager.restore_last_backup` (backup.py lines 43–59): with an
empty history return `None` and change nothing; otherwise pop the last
entry (the in-memory pop happens before the existence check), and if the
backup file exists copy it over the original path and persist the popped
history, else raise `FileNotFoundError` leaving the persisted log and the
file system untouched. -/
def restore_last_backup (s : BackupState) : RestoreResult × BackupState :=
  match s.history.getLast? with
  | none => (RestoreResult.noHistory, s)
  | some last =>
    match fsLookup s.fs last.backup_file with
    | some content =>
      (RestoreResult.restored last.original_file,
        ⟨s.history.dropLast, s.history.dropLast,
          fsWrite s.fs last.original_file content⟩)
    | none =>
      (RestoreResult.missingBackup last.backup_file,
        ⟨s.history.dropLast, s.diskHistory, s.fs⟩)
/-! ## General lemmas about the engine's building blocks -/

theorem cleanBlock_eq_nil_iff (S : List Str) :
    cleanBlock S = [] ↔ ∀ s ∈ S, pyStrip s = [] := by
  induction S with
  | nil => simp [cleanBlock]
  | cons l r ih =>
    by_cases h : pyStrip l = [] <;> simp [cleanBlock, h, ih]

theorem cleanBlock_of_nonblank (S : List Str) (h : ∀ s ∈ S, pyStrip s ≠ []) :
    cleanBlock S = S.map pyStrip := by
  induction S with
  | nil => simp [cleanBlock]
  | cons l r ih =>
    have hl : pyStrip l ≠ [] := h l (List.mem_cons_self l r)
    simp [cleanBlock, hl, ih fun s hs => h s (List.mem_cons_of_mem l hs)]

theorem buildBlocks_render (ops : List LineOp) :
    buildBlocks (ops.map renderOp) = (searchOf ops, replaceOf ops, hasChangesOf ops) := by
  induction ops with
  | nil => rfl
  | cons op r ih =>
    cases op <;>
      simp [renderOp, buildBlocks, searchOf, replaceOf, hasChangesOf, ih]

theorem search_eq_replace_of_noChanges (ops : List LineOp)
    (h : hasChangesOf ops = false) : searchOf ops = replaceOf ops := by
  induction ops with
  | nil => rfl
  | cons op r ih =>
    cases op with
    | context t => simp [searchOf, replaceOf, ih (by simpa [hasChangesOf] using h)]
    | add t => simp [hasChangesOf] at h
    | remove t => simp [hasChangesOf] at h

theorem findMatchFrom_some_spec (orig search : List Str) :
    ∀ fuel i j, findMatchFrom orig search i fuel = some j →
      i ≤ j ∧ j < i + fuel ∧ matchAt orig search j ∧
        ∀ k, i ≤ k → k < j → ¬ matchAt orig search k := by
  intro fuel
  induction fuel with
  | zero => intro i j h; simp [findMatchFrom] at h
  | succ fuel ih =>
    intro i j h
    unfold findMatchFrom at h
    by_cases hw : (orig.drop i).take search.length = search
    · simp [hw] at h
      subst h
      exact ⟨le_refl i, by omega, hw, fun k hk hk' => absurd hk' (by omega)⟩
    · simp [hw] at h
      obtain ⟨h1, h2, h3, h4⟩ := ih (i + 1) j h
      refine ⟨by omega, by omega, h3, fun k hk hk' => ?_⟩
      rcases Nat.eq_or_lt_of_le hk with rfl | hlt
      · exact hw
      · exact h4 k hlt hk'

theorem findMatchFrom_isSome (orig search : List Str) :
    ∀ fuel i j, i ≤ j → j < i + fuel → matchAt orig search j →
      (findMatchFrom orig search i fuel).isSome = true := by
  intro fuel
  induction fuel with
  | zero => intro i j h1 h2 _; omega
  | succ fuel ih =>
    intro i j h1 h2 h3
    unfold findMatchFrom
    by_cases hw : (orig.drop i).take search.length = search
    · simp [hw]
    · simp [hw]
      rcases Nat.eq_or_lt_of_le h1 with rfl | hlt
      · exact absurd h3 hw
      · exact ih (i + 1) j hlt (by omega) h3

/-- The scan of patch.py lines 76–80 returns the first matching window:
if some window matches at `j`, it returns a match index `m ≤ j` with no
matching window below `m`. -/
theorem findMatch_first (orig search : List Str) (j : Nat)
    (hj : matchAt orig search j) (hlen : j + search.length ≤ orig.length) :
    ∃ m, findMatch orig search = some m ∧ m ≤ j ∧ matchAt orig search m ∧
      ∀ k, k < m → ¬ matchAt orig search k := by
  have hfuel : j < 0 + (orig.length + 1 - search.length) := by omega
  have hsome := findMatchFrom_isSome orig search (orig.length + 1 - search.length) 0 j
    (Nat.zero_le j) hfuel hj
  obtain ⟨m, hm⟩ := Option.isSome_iff_exists.mp hsome
  obtain ⟨_, _, hmatch, hmin⟩ := findMatchFrom_some_spec orig search _ 0 m hm
  refine ⟨m, hm, ?_, hmatch, fun k hk => hmin k (Nat.zero_le k) hk⟩
  by_contra hle
  exact hmin j (Nat.zero_le j) (by omega) hj

theorem findMatch_some_spec (orig search : List Str) (m : Nat)
    (h : findMatch orig search = some m) :
    matchAt orig search m ∧ ∀ k, k < m → ¬ matchAt orig search k := by
  obtain ⟨_, _, hmatch, hmin⟩ := findMatchFrom_some_spec orig search _ 0 m h
  exact ⟨hmatch, fun k hk => hmin k (Nat.zero_le k) hk⟩

/-- A structural decomposition `lines = pre ++ mid ++ post` with
`mid` matching `search` line-for-line after stripping yields a matching
window of the stripped line sequence at index `pre.length`. -/
theorem matchAt_of_decomp (pre mid post : List Str) (search : List Str)
    (hmap : mid.map pyStrip = search.map pyStrip) :
    matchAt ((pre ++ mid ++ post).map pyStrip) (search.map pyStrip) pre.length := by
  unfold matchAt
  have hlen : mid.length = search.length := by
    simpa using congrArg List.length hmap
  have h1 : (pre ++ mid ++ post).map pyStrip
      = pre.map pyStrip ++ (mid.map pyStrip ++ post.map pyStrip) := by
    simp [List.map_append]
  rw [h1]
  have h2 : (pre.map pyStrip).length = pre.length := by simp
  rw [← h2, List.drop_left]
  have h3 : (search.map pyStrip).length = (mid.map pyStrip).length := by simp [hlen]
  rw [h3, List.take_left]
  exact hmap

theorem getD_map_of_lt (f : Str → Str) (l : List Str) (k : Nat) (hk : k < l.length) :
    (l.map f).getD k [] = f (l.getD k []) := by
  induction l generalizing k with
  | nil => simp at hk
  | cons a r ih =>
    cases k with
    | zero => simp
    | succ k => simpa using ih k (by simpa using hk)

/-! ## Branch lemmas for the matcher/applier body -/

theorem applyBlocks_no_changes (o : Str) (S R : List Str) :
    applyBlocks o S R false = Except.error emptyDiffMsg := by
  simp [applyBlocks]

theorem applyBlocks_pure_add (o : Str) (S R : List Str) (h : cleanBlock S = []) :
    applyBlocks o S R true = Except.ok (pyRStrip o ++ '\n' :: joinNL R) := by
  simp [applyBlocks, h]

theorem applyBlocks_found_short (o : Str) (S R : List Str) (m : Nat)
    (hc : cleanBlock S ≠ [])
    (hm : findMatch (List.map pyStrip (pySplitlines o)) (cleanBlock S) = some m)
    (hshort : (nonblankIndicesFrom 0 (pySplitlines o)).length < m + (cleanBlock S).length) :
    applyBlocks o S R true = Except.ok (replaceAll (joinNL S) (joinNL R) o) := by
  simp [applyBlocks, hc, hm, hshort]

theorem applyBlocks_found_join (o : Str) (S R : List Str) (m : Nat)
    (hc : cleanBlock S ≠ [])
    (hm : findMatch (List.map pyStrip (pySplitlines o)) (cleanBlock S) = some m)
    (hlong : ¬ (nonblankIndicesFrom 0 (pySplitlines o)).length < m + (cleanBlock S).length) :
    applyBlocks o S R true = Except.ok (joinNL
      ((pySplitlines o).take ((nonblankIndicesFrom 0 (pySplitlines o)).getD m 0)
        ++ R
        ++ (pySplitlines o).drop
          ((nonblankIndicesFrom 0 (pySplitlines o)).getD
            (m + (cleanBlock S).length - 1) 0 + 1))) := by
  simp [applyBlocks, hc, hm, hlong]

theorem applyBlocks_none_substr (o : Str) (S R : List Str)
    (hc : cleanBlock S ≠ [])
    (hm : findMatch (List.map pyStrip (pySplitlines o)) (cleanBlock S) = none)
    (hne : joinNL S ≠ []) (hsub : isSubstr (joinNL S) o = true) :
    applyBlocks o S R true = Except.ok (replaceAll (joinNL S) (joinNL R) o) := by
  simp [applyBlocks, hc, hm, hne, hsub]

theorem applyBlocks_ok_of_found (o : Str) (S R : List Str) (m : Nat)
    (hc : cleanBlock S ≠ [])
    (hm : findMatch (List.map pyStrip (pySplitlines o)) (cleanBlock S) = some m) :
    ∃ out, applyBlocks o S R true = Except.ok out := by
  by_cases hshort :
      (nonblankIndicesFrom 0 (pySplitlines o)).length < m + (cleanBlock S).length
  · exact ⟨_, applyBlocks_found_short o S R m hc hm hshort⟩
  · exact ⟨_, applyBlocks_found_join o S R m hc hm hshort⟩

theorem applyCore_eq (o : Str) (ops : List LineOp) :
    applyCore o (ops.map renderOp)
      = applyBlocks o (searchOf ops) (replaceOf ops) (hasChangesOf ops) := by
  unfold applyCore
  rw [buildBlocks_render]

theorem apply_patch_dry_run_eq (o diff : Str) (ops : List LineOp)
    (hparse : parseHunk (pySplitlines diff) false = ops.map renderOp)
    (hne : ops ≠ []) :
    apply_patch_dry_run o diff
      = applyBlocks o (searchOf ops) (replaceOf ops) (hasChangesOf ops) := by
  unfold apply_patch_dry_run
  rw [hparse]
  have h : ops.map renderOp ≠ [] := by
    simpa using hne
  simp [h, applyCore_eq]

/-! ## Lemmas about line splitting, joining and substring replacement -/

theorem splitNL_ne_nil (s : Str) : splitNL s ≠ [] := by
  cases s with
  | nil => simp [splitNL]
  | cons c rest =>
    unfold splitNL
    cases h : splitNL rest with
    | nil => simp
    | cons p ps => by_cases hc : c = '\n' <;> simp [hc]

theorem splitNL_no_newline (s : Str) : ∀ l ∈ splitNL s, '\n' ∉ l := by
  induction s with
  | nil => simp [splitNL]
  | cons c rest ih =>
    intro l hl
    unfold splitNL at hl
    cases h : splitNL rest with
    | nil => exact absurd h (splitNL_ne_nil rest)
    | cons p ps =>
      rw [h] at hl
      by_cases hc : c = '\n'
      · simp [hc] at hl
        rcases hl with rfl | rfl | hl
        · simp
        · exact ih l (by simp [h])
        · exact ih l (by simp [h, hl])
      · simp [hc] at hl
        rcases hl with rfl | hl
        · intro hmem
          rcases List.mem_cons.mp hmem with h1 | h1
          · exact hc h1.symm
          · exact ih p (by simp [h]) h1
        · exact ih l (by simp [h, hl])

theorem pySplitlines_no_newline (s : Str) : ∀ l ∈ pySplitlines s, '\n' ∉ l := by
  intro l hl
  unfold pySplitlines at hl
  by_cases h0 : s = []
  · simp [h0] at hl
  · by_cases h1 : s.getLast? = some '\n'
    · simp [h0, h1] at hl
      exact splitNL_no_newline s l ((List.dropLast_sublist _).mem hl)
    · simp [h0, h1] at hl
      exact splitNL_no_newline s l hl

theorem replaceOf_no_newline (ops : List LineOp)
    (h : ∀ op ∈ ops, '\n' ∉ opContent op) : ∀ l ∈ replaceOf ops, '\n' ∉ l := by
  induction ops with
  | nil => simp [replaceOf]
  | cons op r ih =>
    have hop := h op (List.mem_cons_self op r)
    have hr := fun o ho => h o (List.mem_cons_of_mem op ho)
    intro l hl
    cases op with
    | context t =>
      rcases List.mem_cons.mp hl with rfl | hl
      · exact hop
      · exact ih hr l hl
    | add t =>
      rcases List.mem_cons.mp hl with rfl | hl
      · exact hop
      · exact ih hr l hl
    | remove t => exact ih hr l hl

theorem joinNL_cons (l : Str) (ls : List Str) (h : ls ≠ []) :
    joinNL (l :: ls) = l ++ '\n' :: joinNL ls := by
  cases ls with
  | nil => exact absurd rfl h
  | cons b ls2 => rfl

theorem joinNL_eq_nil_iff (ls : List Str) :
    joinNL ls = [] ↔ ls = [] ∨ ls = [[]] := by
  cases ls with
  | nil => simp [joinNL]
  | cons a ls2 =>
    cases ls2 with
    | nil => simp [joinNL]
    | cons b ls3 => simp [joinNL]

/-- With newline-free lines, the joined text ends in a newline character
exactly when the line list has at least two lines and its last line is
empty. -/
theorem joinNL_getLast_newline (ls : List Str) (h : ∀ l ∈ ls, '\n' ∉ l) :
    (joinNL ls).getLast? = some '\n' ↔ 2 ≤ ls.length ∧ ls.getLast? = some [] := by
  induction ls with
  | nil => simp [joinNL]
  | cons a ls ih =>
    cases ls with
    | nil =>
      simp only [joinNL, List.length_singleton]
      constructor
      · intro hlast
        exact absurd (List.mem_of_getLast?_eq_some hlast)
          (h a (List.mem_cons_self a []))
      · intro hcon
        omega
    | cons b ls2 =>
      rw [joinNL_cons a (b :: ls2) (by simp)]
      rw [List.getLast?_append_of_ne_nil a (by simp)]
      by_cases hj : joinNL (b :: ls2) = []
      · have hb : b = [] ∧ ls2 = [] := by
          rcases (joinNL_eq_nil_iff (b :: ls2)).mp hj with h1 | h1
          · simp at h1
          · simp at h1
            exact ⟨h1.1, h1.2⟩
        obtain ⟨rfl, rfl⟩ := hb
        simp [joinNL]
      · have ihb := ih (fun l hl => h l (List.mem_cons_of_mem a hl))
        obtain ⟨x, xs, hxx⟩ : ∃ x xs, joinNL (b :: ls2) = x :: xs := by
          cases hjj : joinNL (b :: ls2) with
          | nil => exact absurd hjj hj
          | cons x xs => exact ⟨x, xs, rfl⟩
        rw [hxx, List.getLast?_cons_cons, ← hxx, ihb]
        constructor
        · rintro ⟨h1, h2⟩
          exact ⟨by simp, by rw [List.getLast?_cons_cons]; exact h2⟩
        · rintro ⟨h1, h2⟩
          rw [List.getLast?_cons_cons] at h2
          refine ⟨?_, h2⟩
          cases ls2 with
          | nil =>
            simp at h2
            subst h2
            exact absurd rfl hj
          | cons c ls3 => simp

theorem isSubstr_nil_pat (s : Str) : isSubstr [] s = true := by
  cases s <;> simp [isSubstr, List.isPrefixOf]

theorem replaceAllFuel_stable (pat rep : Str) :
    ∀ f s, s.length ≤ f → replaceAllFuel pat rep f s = replaceAllFuel pat rep s.length s := by
  intro f
  induction f using Nat.strong_induction_on with
  | _ f ih =>
    intro s hs
    match f, s with
    | 0, s =>
      have : s = [] := List.length_eq_zero.mp (Nat.le_zero.mp hs)
      subst this
      rfl
    | g + 1, [] => rfl
    | g + 1, c :: rest =>
      simp only [List.length_cons]
      have hrest : rest.length ≤ g := by simp at hs; omega
      by_cases hp : pat.isPrefixOf (c :: rest) = true
      · have h1 : ∀ m, replaceAllFuel pat rep (m + 1) (c :: rest)
            = rep ++ replaceAllFuel pat rep m (List.drop (pat.length - 1) rest) := by
          intro m
          simp [replaceAllFuel, hp]
        have hlen : (List.drop (pat.length - 1) rest).length ≤ rest.length := by
          simp [List.length_drop]
        rw [h1 g, h1 rest.length, ih g (by omega) _ (by omega),
          ih rest.length (by omega) _ hlen]
      · have h1 : ∀ m, replaceAllFuel pat rep (m + 1) (c :: rest)
            = c :: replaceAllFuel pat rep m rest := by
          intro m
          simp [replaceAllFuel, hp]
        rw [h1 g, h1 rest.length, ih g (by omega) rest (by omega)]

/-- The leftmost occurrence of the pattern is replaced and scanning resumes
after it — half of the Python `str.replace` contract. -/
theorem replaceAll_head (pat rep t : Str) (hpat : pat ≠ []) :
    replaceAll pat rep (pat ++ t) = rep ++ replaceAll pat rep t := by
  obtain ⟨p, ps, rfl⟩ : ∃ p ps, pat = p :: ps := by
    cases pat with
    | nil => exact absurd rfl hpat
    | cons p ps => exact ⟨p, ps, rfl⟩
  unfold replaceAll
  rw [if_neg hpat, if_neg hpat]
  have hcons : (p :: ps) ++ t = p :: (ps ++ t) := rfl
  have hpre : (p :: ps).isPrefixOf (p :: (ps ++ t)) = true := by
    rw [List.isPrefixOf_iff_prefix, ← hcons]
    exact List.prefix_append (p :: ps) t
  rw [hcons]
  simp only [List.length_cons, replaceAllFuel, hpre, if_true, List.length_cons,
    Nat.add_sub_cancel]
  rw [List.drop_left]
  have : (ps ++ t).length = ps.length + t.length := by simp
  rw [this, replaceAllFuel_stable (p :: ps) rep (ps.length + t.length) t (by omega)]

/-- Text without an occurrence of the pattern is returned unchanged — the
other half of the Python `str.replace` contract. -/
theorem replaceAll_not_occurs (pat rep s : Str) (h : isSubstr pat s = false) :
    replaceAll pat rep s = s := by
  have hpat : pat ≠ [] := by
    intro hp
    rw [hp, isSubstr_nil_pat] at h
    exact Bool.true_eq_false.mp h
  induction s with
  | nil =>
    unfold replaceAll
    rw [if_neg hpat]
    rfl
  | cons c rest ih =>
    unfold isSubstr at h
    rw [Bool.or_eq_false_iff] at h
    unfold replaceAll
    rw [if_neg hpat]
    have h1 : replaceAllFuel pat rep (rest.length + 1) (c :: rest)
        = c :: replaceAllFuel pat rep rest.length rest := by
      simp [replaceAllFuel, h.1]
    simp only [List.length_cons]
    rw [h1]
    have := ih h.2
    unfold replaceAll at this
    rw [if_neg hpat] at this
    rw [this]

theorem fsLookup_fsWrite (fs : List (String × String)) (p c : String) :
    fsLookup (fsWrite fs p c) p = some c := by
  simp [fsLookup, fsWrite, List.find?]

theorem isPrefixOf_extend (a : Char) (l s : Str)
    (h : List.isPrefixOf (a :: l) s = true) : List.isPrefixOf [a] s = true := by
  rw [List.isPrefixOf_iff_prefix] at h ⊢
  obtain ⟨u, hu⟩ := h
  exact ⟨l ++ u, by rw [← hu]; simp⟩

theorem applyBlocks_true_ne_empty (o : Str) (S R : List Str) :
    applyBlocks o S R true ≠ Except.error emptyDiffMsg := by
  unfold applyBlocks
  by_cases hc : cleanBlock S = []
  · simp [hc]
  · simp only [hc]
    cases hfm : findMatch (List.map pyStrip (pySplitlines o)) (cleanBlock S) with
    | some m =>
      by_cases hlt : (nonblankIndicesFrom 0 (pySplitlines o)).length < m + (cleanBlock S).length <;>
        simp [hfm, hlt]
    | none =>
      by_cases hif : joinNL S ≠ [] ∧ isSubstr (joinNL S) o = true
      · simp [hfm, hif]
      · simp [hfm, hif]
        intro hmsg
        have : emptyDiffMsg ≠ noMatchMsg := by decide
        exact this hmsg.symm

/-! ## Claim theorems -/

/-- C1 (code evaluation at the failing input): in `"\nb\nc\nd"` the
SearchBlock `["b","c"]` occurs exactly at lines 1–2, yet
`apply_patch_dry_run` returns `"\nb\nX"` — it replaces lines 2–3, keeping
line `"b"` of the matched span and destroying line `"d"` outside it — not
the `"\nX\nd"` the claim requires.  The scan index counts all lines while
the span remap counts only non-blank lines, so a leading blank line shifts
the replaced span. -/
theorem C1_code_result :
    ((pySplitlines (strToChars "\nb\nc\nd")).drop 1).take 2
        = [strToChars "b", strToChars "c"]
    ∧ apply_patch_dry_run (strToChars "\nb\nc\nd") (strToChars "@@\n-b\n-c\n+X")
        = Except.ok (strToChars "\nb\nX")
    ∧ strToChars "\nb\nX" ≠ strToChars "\nX\nd" := by
  refine ⟨rfl, rfl, by decide⟩

/-- C2 (counterexample): the hunk `-a` / `+a` has SearchBlock equal to
ReplaceBlock, yet `apply_patch_dry_run` succeeds on `"a"` instead of
failing with the EmptyChange error. -/
theorem C2_counterexample :
    searchOf [LineOp.remove (strToChars "a"), LineOp.add (strToChars "a")]
      = replaceOf [LineOp.remove (strToChars "a"), LineOp.add (strToChars "a")]
    ∧ apply_patch_dry_run (strToChars "a") (strToChars "@@\n-a\n+a")
      = Except.ok (strToChars "a") := by
  exact ⟨rfl, rfl⟩

/-- C2 (amended): the EmptyChange failure (`"Diff contains no additions or
deletions."`) occurs exactly when the hunk has no Add and no Remove line
operations; that condition implies SearchBlock = ReplaceBlock, but
SearchBlock = ReplaceBlock alone does not trigger the failure. -/
theorem C2_empty_change_condition (original : Str) (ops : List LineOp) :
    (hasChangesOf ops = false →
      applyCore original (ops.map renderOp) = Except.error emptyDiffMsg
      ∧ searchOf ops = replaceOf ops)
    ∧ (hasChangesOf ops = true →
      applyCore original (ops.map renderOp) ≠ Except.error emptyDiffMsg) := by
  constructor
  · intro h
    rw [applyCore_eq, h]
    exact ⟨applyBlocks_no_changes original _ _, search_eq_replace_of_noChanges ops h⟩
  · intro h
    rw [applyCore_eq, h]
    exact applyBlocks_true_ne_empty original _ _

/-- Witness for C2 (amended) at two concrete hunks: a context-only hunk
fails with the EmptyChange error, and a `-a`/`+a` hunk never does. -/
theorem C2_empty_change_condition_witness :
    (applyCore (strToChars "a") ([LineOp.context (strToChars "a")].map renderOp)
        = Except.error emptyDiffMsg
      ∧ searchOf [LineOp.context (strToChars "a")]
        = replaceOf [LineOp.context (strToChars "a")])
    ∧ applyCore (strToChars "a")
        ([LineOp.remove (strToChars "a"), LineOp.add (strToChars "a")].map renderOp)
      ≠ Except.error emptyDiffMsg := by
  exact ⟨(C2_empty_change_condition (strToChars "a") [LineOp.context (strToChars "a")]).1 rfl,
    (C2_empty_change_condition (strToChars "a")
      [LineOp.remove (strToChars "a"), LineOp.add (strToChars "a")]).2 rfl⟩

/-- C3 (counterexample): in `"  x\nx"` the SearchBlock `["x"]` occurs
exactly (byte-for-byte) at line 1, but the engine replaces line 0 — a
whitespace-normalized match at an earlier position — producing `"y\nx"`
instead of the claimed `"  x\ny"`. -/
theorem C3_counterexample :
    ((pySplitlines (strToChars "  x\nx")).drop 1).take 1 = [strToChars "x"]
    ∧ apply_patch_dry_run (strToChars "  x\nx") (strToChars "@@\n-x\n+y")
      = Except.ok (strToChars "y\nx")
    ∧ strToChars "y\nx" ≠ strToChars "  x\ny" := by
  refine ⟨rfl, rfl, by decide⟩

/-- C3 (amended): the matcher has no exact byte-for-byte stage; after the
pure-addition check it performs a single whitespace-normalized scan.
When the SearchBlock (all of whose lines have non-whitespace content)
occurs exactly as a contiguous run of original lines, the scan
deterministically selects the first whitespace-normalized match, whose
start index is at most the exact run's start index — possibly a
normalized-only match strictly before the exact occurrence. -/
theorem C3_first_normalized_selection (original : Str) (ops : List LineOp)
    (pre post : List Str)
    (hsplit : pySplitlines original = pre ++ searchOf ops ++ post)
    (hnb : ∀ s ∈ searchOf ops, pyStrip s ≠ []) :
    ∃ j, j ≤ pre.length
      ∧ findMatch ((pySplitlines original).map pyStrip) (cleanBlock (searchOf ops)) = some j
      ∧ matchAt ((pySplitlines original).map pyStrip) (cleanBlock (searchOf ops)) j
      ∧ ∀ k, k < j →
          ¬ matchAt ((pySplitlines original).map pyStrip) (cleanBlock (searchOf ops)) k := by
  rw [hsplit, cleanBlock_of_nonblank _ hnb]
  have hmatch := matchAt_of_decomp pre (searchOf ops) post (searchOf ops) rfl
  have hlen : pre.length + ((searchOf ops).map pyStrip).length
      ≤ ((pre ++ searchOf ops ++ post).map pyStrip).length := by
    simp
  obtain ⟨m, hm, hle, hmat, hmin⟩ := findMatch_first _ _ pre.length hmatch hlen
  exact ⟨m, hle, hm, hmat, hmin⟩

/-- Witness for C3 (amended) on `"  x\nx"` with SearchBlock `["x"]`
occurring exactly at line 1. -/
theorem C3_first_normalized_selection_witness :
    ∃ j, j ≤ 1
      ∧ findMatch ((pySplitlines (strToChars "  x\nx")).map pyStrip)
          (cleanBlock (searchOf [LineOp.remove (strToChars "x")])) = some j
      ∧ matchAt ((pySplitlines (strToChars "  x\nx")).map pyStrip)
          (cleanBlock (searchOf [LineOp.remove (strToChars "x")])) j
      ∧ ∀ k, k < j →
          ¬ matchAt ((pySplitlines (strToChars "  x\nx")).map pyStrip)
            (cleanBlock (searchOf [LineOp.remove (strToChars "x")])) k := by
  have h := C3_first_normalized_selection (strToChars "  x\nx")
    [LineOp.remove (strToChars "x")] [strToChars "  x"] [] rfl (by decide)
  simpa using h

/-- C4 (code evaluation at the failing input): for original `"a\n\nb"` and
SearchBlock `["a","b"]` the blank-filtered comparison sequences coincide,
so the specified fuzzy stage would match spanning lines 0–2; the code only
drops blank lines from the SearchBlock side, keeps them in the original's
comparison sequence, finds no window, and fails with the NoMatchFound
error. -/
theorem C4_code_result :
    cleanBlock (pySplitlines (strToChars "a\n\nb"))
      = cleanBlock [strToChars "a", strToChars "b"]
    ∧ apply_patch_dry_run (strToChars "a\n\nb") (strToChars "@@\n-a\n-b\n+X")
      = Except.error noMatchMsg := by
  exact ⟨rfl, rfl⟩

/-- C5 (counterexample): take SearchBlock `["a", "", "b"]` and original
`"a\n\nb"` — every SearchBlock line differs from the corresponding
original line only in whitespace (they are identical) — yet the fuzzy
scan finds no match, because the blank SearchBlock line is dropped while
the original's blank line is kept in the comparison sequence. -/
theorem C5_counterexample :
    pySplitlines (strToChars "a\n\nb") = [strToChars "a", [], strToChars "b"]
    ∧ findMatch ((pySplitlines (strToChars "a\n\nb")).map pyStrip)
        (cleanBlock [strToChars "a", [], strToChars "b"]) = none := by
  exact ⟨rfl, rfl⟩

/-- C5 (amended): restricted to SearchBlocks all of whose lines have
non-whitespace content, a contiguous run of original lines equal to the
SearchBlock up to per-line stripping makes the fuzzy scan succeed (at that
run or earlier) and the whole application return a result; and a run in
which some line differs from the corresponding SearchBlock line beyond
whitespace is never selected as a match at that position. -/
theorem C5_whitespace_fuzzy :
    (∀ (original : Str) (ops : List LineOp) (pre mid post : List Str),
      hasChangesOf ops = true →
      (∀ s ∈ searchOf ops, pyStrip s ≠ []) →
      searchOf ops ≠ [] →
      pySplitlines original = pre ++ mid ++ post →
      mid.map pyStrip = (searchOf ops).map pyStrip →
      (∃ j, j ≤ pre.length
        ∧ findMatch ((pySplitlines original).map pyStrip)
            (cleanBlock (searchOf ops)) = some j)
      ∧ ∃ out, applyCore original (ops.map renderOp) = Except.ok out)
    ∧ (∀ (lines pre mid post : List Str) (S : List Str) (k : Nat),
      (∀ s ∈ S, pyStrip s ≠ []) →
      lines = pre ++ mid ++ post →
      mid.length = S.length →
      k < S.length →
      pyStrip (mid.getD k []) ≠ pyStrip (S.getD k []) →
      ¬ matchAt (lines.map pyStrip) (cleanBlock S) pre.length) := by
  constructor
  · intro original ops pre mid post hch hnb hne hsplit hmap
    have hclean : cleanBlock (searchOf ops) = (searchOf ops).map pyStrip :=
      cleanBlock_of_nonblank _ hnb
    have hmatch := matchAt_of_decomp pre mid post (searchOf ops) hmap
    have hmidlen : mid.length = (searchOf ops).length := by
      simpa using congrArg List.length hmap
    have hlen : pre.length + ((searchOf ops).map pyStrip).length
        ≤ ((pre ++ mid ++ post).map pyStrip).length := by
      simp only [List.length_map, List.length_append]
      omega
    obtain ⟨m, hm, hle, hmat, hmin⟩ := findMatch_first _ _ pre.length hmatch hlen
    have hm' : findMatch ((pySplitlines original).map pyStrip)
        (cleanBlock (searchOf ops)) = some m := by
      rw [hsplit, hclean]
      exact hm
    have hcne : cleanBlock (searchOf ops) ≠ [] := by
      rw [hclean]
      simpa using hne
    refine ⟨⟨m, hle, hm'⟩, ?_⟩
    rw [applyCore_eq, hch]
    exact applyBlocks_ok_of_found original _ (replaceOf ops) m hcne hm'
  · intro lines pre mid post S k hnb hlines hlen hk hdiff hmatch
    subst hlines
    rw [cleanBlock_of_nonblank S hnb] at hmatch
    unfold matchAt at hmatch
    have h1 : (pre ++ mid ++ post).map pyStrip
        = pre.map pyStrip ++ (mid.map pyStrip ++ post.map pyStrip) := by
      simp
    rw [h1] at hmatch
    have hdrop : (pre.map pyStrip ++ (mid.map pyStrip ++ post.map pyStrip)).drop pre.length
        = mid.map pyStrip ++ post.map pyStrip := by
      rw [show pre.length = (pre.map pyStrip).length from by simp, List.drop_left]
    rw [hdrop] at hmatch
    have htake : (mid.map pyStrip ++ post.map pyStrip).take ((S.map pyStrip)).length
        = mid.map pyStrip := by
      rw [show (S.map pyStrip).length = (mid.map pyStrip).length from by simp [hlen],
        List.take_left]
    rw [htake] at hmatch
    have hgd := congrArg (fun l => l.getD k []) hmatch
    simp only at hgd
    rw [getD_map_of_lt pyStrip mid k (by omega), getD_map_of_lt pyStrip S k hk] at hgd
    exact hdiff hgd

/-- Witness for C5 (amended): the whitespace-only run `["a", "  b"]`
against SearchBlock `["a","b"]` matches and applies, and the run
`["a","c"]` against SearchBlock `["a","b"]` is rejected at its position. -/
theorem C5_whitespace_fuzzy_witness :
    ((∃ j, j ≤ 0
        ∧ findMatch ((pySplitlines (strToChars "a\n  b")).map pyStrip)
            (cleanBlock (searchOf [LineOp.remove (strToChars "a"),
              LineOp.remove (strToChars "b"), LineOp.add (strToChars "X")])) = some j)
      ∧ ∃ out, applyCore (strToChars "a\n  b")
          ([LineOp.remove (strToChars "a"), LineOp.remove (strToChars "b"),
            LineOp.add (strToChars "X")].map renderOp) = Except.ok out)
    ∧ ¬ matchAt ([strToChars "a", strToChars "c"].map pyStrip)
        (cleanBlock [strToChars "a", strToChars "b"]) 0 := by
  constructor
  · have h := C5_whitespace_fuzzy.1 (strToChars "a\n  b")
      [LineOp.remove (strToChars "a"), LineOp.remove (strToChars "b"),
        LineOp.add (strToChars "X")]
      [] [strToChars "a", strToChars "  b"] [] rfl (by decide) (by decide) rfl (by decide)
    simpa using h
  · have h := C5_whitespace_fuzzy.2 [strToChars "a", strToChars "c"]
      [] [strToChars "a", strToChars "c"] [] [strToChars "a", strToChars "b"] 1
      (by decide) rfl rfl (by decide) (by decide)
    simpa using h

/-- C6 (counterexample): for original `"a\n"` and pure-addition hunk `+b`
the engine returns `"a\nb"` — the original's trailing newline is stripped
before appending — not the claimed `original + separator + ReplaceBlock`
which would be `"a\n\nb"`. -/
theorem C6_counterexample :
    apply_patch_dry_run (strToChars "a\n") (strToChars "@@\n+b")
      = Except.ok (strToChars "a\nb")
    ∧ strToChars "a\nb" ≠ strToChars "a\n\nb" := by
  exact ⟨rfl, by decide⟩

/-- C6 (amended): for every original content and every hunk with at least
one Add or Remove op whose SearchBlock has no line with non-whitespace
content, the engine succeeds and returns the original with all trailing
whitespace stripped, followed by a newline, followed by the ReplaceBlock
joined with newlines. -/
theorem C6_pure_addition (original : Str) (ops : List LineOp)
    (hch : hasChangesOf ops = true)
    (hblank : ∀ s ∈ searchOf ops, pyStrip s = []) :
    applyCore original (ops.map renderOp)
      = Except.ok (pyRStrip original ++ '\n' :: joinNL (replaceOf ops)) := by
  rw [applyCore_eq, hch]
  exact applyBlocks_pure_add original _ _ ((cleanBlock_eq_nil_iff _).mpr hblank)

/-- Witness for C6 (amended) on original `"a\n"` and hunk `+b`. -/
theorem C6_pure_addition_witness :
    applyCore (strToChars "a\n") ([LineOp.add (strToChars "b")].map renderOp)
      = Except.ok (pyRStrip (strToChars "a\n") ++ '\n'
          :: joinNL (replaceOf [LineOp.add (strToChars "b")])) :=
  C6_pure_addition (strToChars "a\n") [LineOp.add (strToChars "b")] rfl (by decide)

/-- C7 (counterexample): with original `"a\n\nb\na\n\nb"` and SearchBlock
`["a","","b"]` the raw substring `"a\n\nb"` occurs twice; the engine
replaces both occurrences, returning `"X\nX"` instead of the claimed
first-occurrence-only result `"X\na\n\nb"`. -/
theorem C7_counterexample :
    apply_patch_dry_run (strToChars "a\n\nb\na\n\nb") (strToChars "@@\n-a\n-\n-b\n+X")
      = Except.ok (strToChars "X\nX")
    ∧ strToChars "X\nX" ≠ strToChars "X\na\n\nb" := by
  exact ⟨rfl, by decide⟩

/-- C7 (amended): when the line scan fails and the joined SearchBlock
occurs as a raw substring, the engine returns Python's `str.replace`
result, which rewrites every non-overlapping occurrence scanned left to
right: a leading occurrence is replaced and scanning resumes after it,
and occurrence-free text is left unchanged. -/
theorem C7_replace_all_occurrences :
    (∀ (original : Str) (ops : List LineOp),
      hasChangesOf ops = true →
      cleanBlock (searchOf ops) ≠ [] →
      findMatch (List.map pyStrip (pySplitlines original)) (cleanBlock (searchOf ops)) = none →
      joinNL (searchOf ops) ≠ [] →
      isSubstr (joinNL (searchOf ops)) original = true →
      applyCore original (ops.map renderOp)
        = Except.ok (replaceAll (joinNL (searchOf ops)) (joinNL (replaceOf ops)) original))
    ∧ (∀ pat rep t : Str, pat ≠ [] →
        replaceAll pat rep (pat ++ t) = rep ++ replaceAll pat rep t)
    ∧ (∀ pat rep s : Str, isSubstr pat s = false → replaceAll pat rep s = s) := by
  refine ⟨?_, replaceAll_head, replaceAll_not_occurs⟩
  intro original ops hch hcne hfm hne hsub
  rw [applyCore_eq, hch]
  exact applyBlocks_none_substr original _ _ hcne hfm hne hsub

/-- Witness for C7 (amended) on the doubled original `"a\n\nb\na\n\nb"`
and on concrete `replaceAll` instances. -/
theorem C7_replace_all_occurrences_witness :
    applyCore (strToChars "a\n\nb\na\n\nb")
        ([LineOp.remove (strToChars "a"), LineOp.remove [],
          LineOp.remove (strToChars "b"), LineOp.add (strToChars "X")].map renderOp)
      = Except.ok (replaceAll
          (joinNL (searchOf [LineOp.remove (strToChars "a"), LineOp.remove [],
            LineOp.remove (strToChars "b"), LineOp.add (strToChars "X")]))
          (joinNL (replaceOf [LineOp.remove (strToChars "a"), LineOp.remove [],
            LineOp.remove (strToChars "b"), LineOp.add (strToChars "X")]))
          (strToChars "a\n\nb\na\n\nb"))
    ∧ replaceAll (strToChars "ab") (strToChars "c") (strToChars "ab" ++ strToChars "zab")
        = strToChars "c" ++ replaceAll (strToChars "ab") (strToChars "c") (strToChars "zab")
    ∧ replaceAll (strToChars "ab") (strToChars "c") (strToChars "zz") = strToChars "zz" := by
  refine ⟨?_, ?_, ?_⟩
  · exact C7_replace_all_occurrences.1 (strToChars "a\n\nb\na\n\nb")
      [LineOp.remove (strToChars "a"), LineOp.remove [],
        LineOp.remove (strToChars "b"), LineOp.add (strToChars "X")]
      rfl (by decide) rfl (by decide) rfl
  · exact C7_replace_all_occurrences.2.1 (strToChars "ab") (strToChars "c")
      (strToChars "zab") (by decide)
  · exact C7_replace_all_occurrences.2.2 (strToChars "ab") (strToChars "c")
      (strToChars "zz") (by decide)

/-- C8 (counterexample): inside a hunk, the stray header `--- f` is not
skipped — it begins with `-` and is consumed as a hunk line — and the
non-prefixed, non-blank line `noise` does not terminate scanning: the
later `+b` is still collected. -/
theorem C8_counterexample :
    parseHunk (pySplitlines (strToChars "@@\n-a\n--- f\nnoise\n+b")) false
      = [strToChars "-a", strToChars "--- f", strToChars "+b"] := by
  rfl

/-- C8 (amended): while scanning inside a hunk, a fully blank line not
beginning with a space becomes the single-space hunk line (a Context op
with empty content); a line beginning with `---` or `+++` begins with `-`
or `+` and is therefore consumed as a hunk line, not skipped; a
non-prefixed, non-blank line terminates scanning only when its stripped
content is exactly the three-backtick fence; every other non-prefixed,
non-blank line is skipped and scanning continues. -/
theorem C8_parser_step_rules :
    (∀ (line : Str) (rest : List Str),
      List.isPrefixOf ['@', '@'] line ≠ true →
      List.isPrefixOf [' '] line ≠ true →
      List.isPrefixOf ['+'] line ≠ true →
      List.isPrefixOf ['-'] line ≠ true →
      pyStrip line = [] →
      parseHunk (line :: rest) true = [' '] :: parseHunk rest true)
    ∧ (∀ (line : Str) (rest : List Str),
      List.isPrefixOf ['@', '@'] line ≠ true →
      (List.isPrefixOf ['-', '-', '-'] line = true ∨
        List.isPrefixOf ['+', '+', '+'] line = true) →
      parseHunk (line :: rest) true = line :: parseHunk rest true)
    ∧ (∀ (line : Str) (rest : List Str),
      List.isPrefixOf ['@', '@'] line ≠ true →
      List.isPrefixOf [' '] line ≠ true →
      List.isPrefixOf ['+'] line ≠ true →
      List.isPrefixOf ['-'] line ≠ true →
      pyStrip line = [Char.ofNat 96, Char.ofNat 96, Char.ofNat 96] →
      parseHunk (line :: rest) true = [])
    ∧ (∀ (line : Str) (rest : List Str),
      List.isPrefixOf ['@', '@'] line ≠ true →
      List.isPrefixOf [' '] line ≠ true →
      List.isPrefixOf ['+'] line ≠ true →
      List.isPrefixOf ['-'] line ≠ true →
      pyStrip line ≠ [] →
      pyStrip line ≠ [Char.ofNat 96, Char.ofNat 96, Char.ofNat 96] →
      parseHunk (line :: rest) true = parseHunk rest true) := by
  refine ⟨?_, ?_, ?_, ?_⟩
  · intro line rest h1 h2 h3 h4 h5
    simp [parseHunk, h1, h2, h3, h4, h5]
  · intro line rest h1 h2
    have hpm : List.isPrefixOf [' '] line = true ∨ List.isPrefixOf ['+'] line = true ∨
        List.isPrefixOf ['-'] line = true := by
      rcases h2 with h | h
      · exact Or.inr (Or.inr (isPrefixOf_extend '-' ['-', '-'] line h))
      · exact Or.inr (Or.inl (isPrefixOf_extend '+' ['+', '+'] line h))
    rcases hpm with h | h | h <;> simp [parseHunk, h1, h]
  · intro line rest h1 h2 h3 h4 h5
    have hm3 : List.isPrefixOf ['-', '-', '-'] line ≠ true := fun hc =>
      h4 (isPrefixOf_extend '-' ['-', '-'] line hc)
    have hp3 : List.isPrefixOf ['+', '+', '+'] line ≠ true := fun hc =>
      h3 (isPrefixOf_extend '+' ['+', '+'] line hc)
    simp [parseHunk, h1, h2, h3, h4, h5, hm3, hp3]
  · intro line rest h1 h2 h3 h4 h5 h6
    have hm3 : List.isPrefixOf ['-', '-', '-'] line ≠ true := fun hc =>
      h4 (isPrefixOf_extend '-' ['-', '-'] line hc)
    have hp3 : List.isPrefixOf ['+', '+', '+'] line ≠ true := fun hc =>
      h3 (isPrefixOf_extend '+' ['+', '+'] line hc)
    simp [parseHunk, h1, h2, h3, h4, h5, h6, hm3, hp3]

/-- Witness for C8 (amended) on the concrete lines `""`, `"--- f"`,
`"` three-backtick fence and `"noise"`. -/
theorem C8_parser_step_rules_witness :
    parseHunk ([] :: [strToChars "+x"]) true = [' '] :: parseHunk [strToChars "+x"] true
    ∧ parseHunk (strToChars "--- f" :: []) true = strToChars "--- f" :: parseHunk [] true
    ∧ parseHunk ([Char.ofNat 96, Char.ofNat 96, Char.ofNat 96] :: [strToChars "+x"]) true = []
    ∧ parseHunk (strToChars "noise" :: [strToChars "+x"]) true
        = parseHunk [strToChars "+x"] true := by
  refine ⟨?_, ?_, ?_, ?_⟩
  · exact C8_parser_step_rules.1 [] [strToChars "+x"]
      (by decide) (by decide) (by decide) (by decide) (by decide)
  · exact C8_parser_step_rules.2.1 (strToChars "--- f") [] (by decide) (Or.inl (by decide))
  · exact C8_parser_step_rules.2.2.1 [Char.ofNat 96, Char.ofNat 96, Char.ofNat 96]
      [strToChars "+x"] (by decide) (by decide) (by decide) (by decide) (by decide)
  · exact C8_parser_step_rules.2.2.2 (strToChars "noise") [strToChars "+x"]
      (by decide) (by decide) (by decide) (by decide) (by decide) (by decide)

/-- C9: `restore_last_backup` is single-step LIFO.  Starting from a state
whose persisted log agrees with the in-memory history: with empty history
it returns the `None` result and changes nothing; with a non-empty history
whose last entry's backup file exists, it copies that backup over the
recorded original path, returns it, and persists the history with exactly
that entry removed; and when the backup file is missing it raises, the
persisted log is untouched and still contains the entry, and no file is
written. -/
theorem C9_restore_lifo (s : BackupState) (hsync : s.diskHistory = s.history) :
    (s.history = [] → restore_last_backup s = (RestoreResult.noHistory, s))
    ∧ (∀ (rest : List BackupEntry) (last : BackupEntry) (content : String),
      s.history = rest ++ [last] →
      fsLookup s.fs last.backup_file = some content →
      restore_last_backup s
        = (RestoreResult.restored last.original_file,
            ⟨rest, rest, fsWrite s.fs last.original_file content⟩)
      ∧ fsLookup (fsWrite s.fs last.original_file content) last.original_file
          = some content)
    ∧ (∀ (rest : List BackupEntry) (last : BackupEntry),
      s.history = rest ++ [last] →
      fsLookup s.fs last.backup_file = none →
      (restore_last_backup s).1 = RestoreResult.missingBackup last.backup_file
      ∧ (restore_last_backup s).2.diskHistory = s.diskHistory
      ∧ last ∈ (restore_last_backup s).2.diskHistory
      ∧ (restore_last_backup s).2.fs = s.fs) := by
  refine ⟨?_, ?_, ?_⟩
  · intro h
    unfold restore_last_backup
    rw [h]
    rfl
  · intro rest last content hh hb
    unfold restore_last_backup
    rw [hh, List.getLast?_concat]
    simp [hb, List.dropLast_concat, fsLookup_fsWrite]
  · intro rest last hh hb
    unfold restore_last_backup
    rw [hh, List.getLast?_concat]
    simp [hb, List.dropLast_concat, hsync, hh]

/-- Witness for C9 on concrete states: an empty history, a history whose
last backup exists, and a history whose last backup file is missing. -/
theorem C9_restore_lifo_witness :
    restore_last_backup ⟨[], [], [("f.py", "cur")]⟩
      = (RestoreResult.noHistory, ⟨[], [], [("f.py", "cur")]⟩)
    ∧ (restore_last_backup
        ⟨[⟨"f.py", "b1", "t1"⟩, ⟨"f.py", "b2", "t2"⟩],
          [⟨"f.py", "b1", "t1"⟩, ⟨"f.py", "b2", "t2"⟩],
          [("b2", "old"), ("f.py", "cur")]⟩
      = (RestoreResult.restored "f.py",
          ⟨[⟨"f.py", "b1", "t1"⟩], [⟨"f.py", "b1", "t1"⟩],
            fsWrite [("b2", "old"), ("f.py", "cur")] "f.py" "old"⟩)
      ∧ fsLookup (fsWrite [("b2", "old"), ("f.py", "cur")] "f.py" "old") "f.py"
          = some "old")
    ∧ ((restore_last_backup
        ⟨[⟨"f.py", "gone", "t1"⟩], [⟨"f.py", "gone", "t1"⟩], [("f.py", "cur")]⟩).1
        = RestoreResult.missingBackup "gone"
      ∧ (restore_last_backup
        ⟨[⟨"f.py", "gone", "t1"⟩], [⟨"f.py", "gone", "t1"⟩], [("f.py", "cur")]⟩).2.diskHistory
        = [⟨"f.py", "gone", "t1"⟩]
      ∧ (⟨"f.py", "gone", "t1"⟩ : BackupEntry) ∈ (restore_last_backup
        ⟨[⟨"f.py", "gone", "t1"⟩], [⟨"f.py", "gone", "t1"⟩], [("f.py", "cur")]⟩).2.diskHistory
      ∧ (restore_last_backup
        ⟨[⟨"f.py", "gone", "t1"⟩], [⟨"f.py", "gone", "t1"⟩], [("f.py", "cur")]⟩).2.fs
        = [("f.py", "cur")]) := by
  refine ⟨?_, ?_, ?_⟩
  · exact (C9_restore_lifo ⟨[], [], [("f.py", "cur")]⟩ rfl).1 rfl
  · exact (C9_restore_lifo _ rfl).2.1 [⟨"f.py", "b1", "t1"⟩] ⟨"f.py", "b2", "t2"⟩ "old"
      rfl (by decide)
  · exact (C9_restore_lifo _ rfl).2.2 [] ⟨"f.py", "gone", "t1"⟩ rfl (by decide)

/-- C10 (counterexample): replacing line `b` of `"a\nb\n"` with an empty
added line makes the engine return `"a\n"` via the line-join path — an
output that does end with a trailing newline, contradicting the claim
that join-path outputs never do. -/
theorem C10_counterexample :
    apply_patch_dry_run (strToChars "a\nb\n") (strToChars "@@\n-b\n+")
      = Except.ok (strToChars "a\n")
    ∧ (strToChars "a\n").getLast? = some '\n' := by
  exact ⟨rfl, rfl⟩

/-- C10 (amended): on the line-join path the output is the spliced line
list joined with `'\n'`; the original's own trailing newline is never
preserved — the output ends with a newline character exactly when the
spliced list has at least two lines and its last line is empty.  On the
pure-addition path all trailing whitespace of the original (its final
newline included) is stripped before the separator and ReplaceBlock are
appended. -/
theorem C10_output_shape :
    (∀ (original : Str) (ops : List LineOp) (m : Nat),
      hasChangesOf ops = true →
      cleanBlock (searchOf ops) ≠ [] →
      findMatch (List.map pyStrip (pySplitlines original)) (cleanBlock (searchOf ops)) = some m →
      ¬ (nonblankIndicesFrom 0 (pySplitlines original)).length
          < m + (cleanBlock (searchOf ops)).length →
      (∀ op ∈ ops, '\n' ∉ opContent op) →
      ∃ spliced,
        applyCore original (ops.map renderOp) = Except.ok (joinNL spliced)
        ∧ ((joinNL spliced).getLast? = some '\n'
            ↔ 2 ≤ spliced.length ∧ spliced.getLast? = some []))
    ∧ (∀ (original : Str) (ops : List LineOp),
      hasChangesOf ops = true →
      (∀ s ∈ searchOf ops, pyStrip s = []) →
      applyCore original (ops.map renderOp)
        = Except.ok (pyRStrip original ++ '\n' :: joinNL (replaceOf ops))) := by
  constructor
  · intro original ops m hch hcne hm hlong hnl
    rw [applyCore_eq, hch, applyBlocks_found_join original _ _ m hcne hm hlong]
    refine ⟨_, rfl, ?_⟩
    apply joinNL_getLast_newline
    intro l hl
    rcases List.mem_append.mp hl with hl1 | hl2
    · rcases List.mem_append.mp hl1 with hl3 | hl4
      · exact pySplitlines_no_newline original l ((List.take_sublist _ _).mem hl3)
      · exact replaceOf_no_newline ops hnl l hl4
    · exact pySplitlines_no_newline original l ((List.drop_sublist _ _).mem hl2)
  · intro original ops hch hblank
    rw [applyCore_eq, hch]
    exact applyBlocks_pure_add original _ _ ((cleanBlock_eq_nil_iff _).mpr hblank)

/-- Witness for C10 (amended): the join path on `"a\nb"` with hunk
`-b`/`+c`, and the pure-addition path on `"x\n"` with hunk `+y`. -/
theorem C10_output_shape_witness :
    (∃ spliced,
      applyCore (strToChars "a\nb")
          ([LineOp.remove (strToChars "b"), LineOp.add (strToChars "c")].map renderOp)
        = Except.ok (joinNL spliced)
      ∧ ((joinNL spliced).getLast? = some '\n'
          ↔ 2 ≤ spliced.length ∧ spliced.getLast? = some []))
    ∧ applyCore (strToChars "x\n") ([LineOp.add (strToChars "y")].map renderOp)
        = Except.ok (pyRStrip (strToChars "x\n") ++ '\n'
            :: joinNL (replaceOf [LineOp.add (strToChars "y")])) := by
  constructor
  · exact C10_output_shape.1 (strToChars "a\nb")
      [LineOp.remove (strToChars "b"), LineOp.add (strToChars "c")] 1
      rfl (by decide) rfl (by decide) (by decide)
  · exact C10_output_shape.2 (strToChars "x\n") [LineOp.add (strToChars "y")] rfl (by decide)
